import Mathlib

/-!
# Verification of the fountaineer Fountain screenplay block classifier

A shallow embedding of `src/fountaineer/parser.py` (`parse_fountain`): the
one-pass, line-at-a-time state machine that turns raw text lines into typed
blocks.  File reading and the debug `print` are outside the model; the parser
is embedded as a pure function on the list of input lines.

Python string primitives used by the source (`str.strip`, `str.startswith`,
`str.endswith`, `str.replace`, `str.split`, `str.isupper`) are modelled on
`List Char` below; `str.isupper` is modelled for ASCII cased characters.
-/

/-- Python whitespace characters recognised by `str.strip()` (ASCII range). -/
def pyIsSpace (c : Char) : Bool :=
  c == ' ' || c == '\t' || c == '\n' || c == '\r' || c == '\x0b' || c == '\x0c'

/-- Strip characters satisfying `p` from both ends of a character list. -/
def stripBy (p : Char → Bool) (l : List Char) : List Char :=
  ((l.dropWhile p).reverse.dropWhile p).reverse

/-- Python `line.strip()`: remove leading and trailing whitespace. -/
def pyStrip (s : String) : String :=
  String.mk (stripBy pyIsSpace s.data)

/-- Python `s.strip("[]")`: remove leading and trailing bracket characters. -/
def stripBrackets (s : String) : String :=
  String.mk (stripBy (fun c => c == '[' || c == ']') s.data)

/-- `listStarts pat l` : does `l` start with the pattern `pat`? -/
def listStarts : List Char → List Char → Bool
  | [], _ => true
  | _ :: _, [] => false
  | p :: ps, c :: cs => p == c && listStarts ps cs

/-- Python `s.startswith(pat)`. -/
def strStarts (s pat : String) : Bool :=
  listStarts pat.data s.data

/-- Python `s.endswith(pat)`. -/
def strEnds (s pat : String) : Bool :=
  listStarts pat.data.reverse s.data.reverse

/-- The scan of Python `str.replace`, fuelled so the recursion is
structural; `replFuel new old (l.length + 1) l` computes `l.replace(old, new)`
for nonempty `old` (the source only ever replaces the nonempty `"Cast:"`). -/
def replFuel (new old : List Char) : Nat → List Char → List Char
  | 0, l => l
  | _ + 1, [] => []
  | n + 1, c :: rest =>
    if listStarts old (c :: rest) then
      new ++ replFuel new old n ((c :: rest).drop old.length)
    else
      c :: replFuel new old n rest

/-- Python `s.replace(old, new)` (nonempty `old`): replace every occurrence,
scanning left to right. -/
def pyReplace (s old new : String) : String :=
  String.mk (replFuel new.data old.data (s.data.length + 1) s.data)

/-- Split a character list on a separator character; like Python `str.split`,
the result is never empty and keeps empty fields. -/
def splitChar (sep : Char) : List Char → List (List Char)
  | [] => [[]]
  | c :: rest =>
    if c == sep then
      [] :: splitChar sep rest
    else
      match splitChar sep rest with
      | [] => [[c]]
      | h :: t => (c :: h) :: t

/-- Python `s.split(sep)` for a one-character separator. -/
def pySplit (s : String) (sep : Char) : List String :=
  (splitChar sep s.data).map String.mk

/-- A cased character in the ASCII model (has upper/lower variants). -/
def isCased (c : Char) : Bool :=
  c.isUpper || c.isLower

/-- Python `s.isupper()`: at least one cased character and no lower-case
cased character (ASCII model). -/
def pyIsUpper (s : String) : Bool :=
  s.data.any isCased && s.data.all (fun c => !(isCased c) || c.isUpper)

/-! ## Data model -/

/-- The block taxonomy of the classifier (the `"type"` field of the Python
block dicts). -/
inductive BlockType where
  | metadata
  | cast
  | transition
  | character
  | parenthetical
  | scene
  | dialogue
  | action
deriving DecidableEq

/-- Block content: a plain string for every kind except `cast`, which stores
a list of names (the Python `"text"` field is heterogeneous). -/
inductive BlockText where
  | str : String → BlockText
  | list : List String → BlockText
deriving DecidableEq

/-- One classified block: the Python dict `{"type": ..., "text": ...}`. -/
structure Block where
  type : BlockType
  text : BlockText
deriving DecidableEq

/-! ## Line guards

Each guard is the corresponding condition of the source's `if`/`elif` chain,
evaluated on the stripped line. -/

/-- `stripped.startswith(("Title:", "Credit:", "Author:", "Draft date:"))`. -/
def isMetaLine (stripped : String) : Bool :=
  strStarts stripped "Title:" || strStarts stripped "Credit:" ||
    strStarts stripped "Author:" || strStarts stripped "Draft date:"

/-- `stripped.startswith("Cast:")`. -/
def isCastLine (stripped : String) : Bool :=
  strStarts stripped "Cast:"

/-- `stripped in ["BLACKOUT", "FADE OUT.", "FADE TO BLACK."] or
stripped.endswith("TO:")`. -/
def isTransitionLine (stripped : String) : Bool :=
  stripped == "BLACKOUT" || stripped == "FADE OUT." ||
    stripped == "FADE TO BLACK." || strEnds stripped "TO:"

/-- `stripped.isupper() and not stripped.startswith(("INT.", "EXT."))`. -/
def isCharacterLine (stripped : String) : Bool :=
  pyIsUpper stripped && !(strStarts stripped "INT." || strStarts stripped "EXT.")

/-- `stripped.startswith("(") and stripped.endswith(")")`. -/
def isParenLine (stripped : String) : Bool :=
  strStarts stripped "(" && strEnds stripped ")"

/-- `stripped.startswith(("INT.", "EXT."))`. -/
def isSceneLine (stripped : String) : Bool :=
  strStarts stripped "INT." || strStarts stripped "EXT."

/-- The cast-list computation of the `Cast:` branch:
`cast_names = stripped.replace("Cast:", "").strip()` followed by
`[name.strip() for name in cast_names.strip("[]").split(",")]`. -/
def castText (stripped : String) : List String :=
  let castNames := pyStrip (pyReplace stripped "Cast:" "")
  (pySplit (stripBrackets castNames) ',').map pyStrip

/-- The dialogue-accumulation update `current_block["text"] += f" {stripped}"`.
Dialogue blocks always carry `.str` text, so the `.list` arm is unreachable;
it mirrors Python list extension by the characters of the appended string. -/
def appendText : BlockText → String → BlockText
  | .str t, s => .str (t ++ " " ++ s)
  | .list l, s => .list (l ++ (" " ++ s).data.map (fun c => String.mk [c]))

/-! ## Parser state machine -/

/-- The loop state of `parse_fountain`: the emitted `blocks` list and the
`current_block` slot. -/
structure ParserState where
  blocks : List Block
  current : Option Block
deriving DecidableEq

/-- `if current_block: blocks.append(current_block)` — the emitted list after
flushing the pending block, if any. -/
def flushBlocks (st : ParserState) : List Block :=
  match st.current with
  | some b => st.blocks ++ [b]
  | none => st.blocks

/-- The loop body of `parse_fountain` acting on the already-stripped line:
the full `if`/`elif` chain, in source order. -/
def processStripped (st : ParserState) (stripped : String) : ParserState :=
  if stripped == "" then
    { blocks := flushBlocks st, current := none }
  else if isMetaLine stripped then
    { blocks := st.blocks ++ [⟨.metadata, .str stripped⟩], current := st.current }
  else if isCastLine stripped then
    { blocks := st.blocks ++ [⟨.cast, .list (castText stripped)⟩], current := st.current }
  else if isTransitionLine stripped then
    { blocks := st.blocks ++ [⟨.transition, .str stripped⟩], current := st.current }
  else if isCharacterLine stripped then
    { blocks := flushBlocks st, current := some ⟨.character, .str stripped⟩ }
  else if isParenLine stripped then
    match st.current with
    | some b =>
      if b.type = .character then
        { blocks := st.blocks ++ [b], current := some ⟨.parenthetical, .str stripped⟩ }
      else
        { blocks := st.blocks, current := some ⟨.parenthetical, .str stripped⟩ }
    | none => { blocks := st.blocks, current := some ⟨.parenthetical, .str stripped⟩ }
  else if isSceneLine stripped then
    { blocks := flushBlocks st, current := some ⟨.scene, .str stripped⟩ }
  else
    match st.current with
    | some b =>
      if b.type = .character ∨ b.type = .parenthetical then
        { blocks := st.blocks ++ [b], current := some ⟨.dialogue, .str stripped⟩ }
      else if b.type = .dialogue then
        { blocks := st.blocks, current := some ⟨.dialogue, appendText b.text stripped⟩ }
      else
        { blocks := st.blocks ++ [b], current := some ⟨.action, .str stripped⟩ }
    | none => { blocks := st.blocks, current := some ⟨.action, .str stripped⟩ }

/-- One loop iteration: `stripped = line.strip()` then the branch chain. -/
def processLine (st : ParserState) (line : String) : ParserState :=
  processStripped st (pyStrip line)

/-- The `for` loop over the input lines. -/
def runLines (st : ParserState) : List String → ParserState
  | [] => st
  | l :: ls => runLines (processLine st l) ls

/-- `parse_fountain`, as a function of the file's line list: run the loop
from the empty state, then flush any still-pending block. -/
def parse_fountain (lines : List String) : List Block :=
  flushBlocks (runLines { blocks := [], current := none } lines)

/-! ## Derived line predicates

These name which branch of the chain a line reaches; each is a conjunction
of the guards above, so theorems can hypothesise "the line falls through to
the dialogue/action cases" etc. -/

/-- The stripped line is non-blank and matches none of the guarded rules:
it reaches the dialogue/action cases of the chain. -/
def plainLine (line : String) : Bool :=
  let s := pyStrip line
  !(s == "") && !isMetaLine s && !isCastLine s && !isTransitionLine s &&
    !isCharacterLine s && !isParenLine s && !isSceneLine s

/-- The stripped line is non-blank and hits one of the three
emit-immediately branches (metadata, cast, transition). -/
def immediateLine (line : String) : Bool :=
  let s := pyStrip line
  !(s == "") && (isMetaLine s || isCastLine s || isTransitionLine s)

/-- The stripped line reaches and fires the character rule: it is not
metadata, cast, or transition, and satisfies the character guard. -/
def characterTrigger (line : String) : Bool :=
  let s := pyStrip line
  !isMetaLine s && !isCastLine s && !isTransitionLine s && isCharacterLine s

/-- The single-space dialogue join: fold the stripped continuation lines
onto the seed text, inserting one space before each. -/
def joinFrom (t : String) (ds : List String) : String :=
  ds.foldl (fun a d => a ++ " " ++ pyStrip d) t

/-! ## Index-instrumented parser

`processStrippedIdx` is `processStripped` with every block paired with the
index of the source line that started it: immediately-emitted blocks carry
the index of their own line, a newly opened pending block carries the index
of the line that opened it, and dialogue accumulation keeps the start index.
It is used to state the block-ordering claims. -/

/-- Loop state of the instrumented parser. -/
structure IdxState where
  blocks : List (Nat × Block)
  current : Option (Nat × Block)
deriving DecidableEq

/-- Flush of the instrumented state. -/
def flushIdx (st : IdxState) : List (Nat × Block) :=
  match st.current with
  | some p => st.blocks ++ [p]
  | none => st.blocks

/-- The loop body of the instrumented parser on line index `i`. -/
def processStrippedIdx (i : Nat) (st : IdxState) (stripped : String) : IdxState :=
  if stripped == "" then
    { blocks := flushIdx st, current := none }
  else if isMetaLine stripped then
    { blocks := st.blocks ++ [(i, ⟨.metadata, .str stripped⟩)], current := st.current }
  else if isCastLine stripped then
    { blocks := st.blocks ++ [(i, ⟨.cast, .list (castText stripped)⟩)], current := st.current }
  else if isTransitionLine stripped then
    { blocks := st.blocks ++ [(i, ⟨.transition, .str stripped⟩)], current := st.current }
  else if isCharacterLine stripped then
    { blocks := flushIdx st, current := some (i, ⟨.character, .str stripped⟩) }
  else if isParenLine stripped then
    match st.current with
    | some p =>
      if p.2.type = .character then
        { blocks := st.blocks ++ [p], current := some (i, ⟨.parenthetical, .str stripped⟩) }
      else
        { blocks := st.blocks, current := some (i, ⟨.parenthetical, .str stripped⟩) }
    | none => { blocks := st.blocks, current := some (i, ⟨.parenthetical, .str stripped⟩) }
  else if isSceneLine stripped then
    { blocks := flushIdx st, current := some (i, ⟨.scene, .str stripped⟩) }
  else
    match st.current with
    | some p =>
      if p.2.type = .character ∨ p.2.type = .parenthetical then
        { blocks := st.blocks ++ [p], current := some (i, ⟨.dialogue, .str stripped⟩) }
      else if p.2.type = .dialogue then
        { blocks := st.blocks, current := some (p.1, ⟨.dialogue, appendText p.2.text stripped⟩) }
      else
        { blocks := st.blocks ++ [p], current := some (i, ⟨.action, .str stripped⟩) }
    | none => { blocks := st.blocks, current := some (i, ⟨.action, .str stripped⟩) }

/-- The instrumented loop, carrying the line index (`enumerate`). -/
def runIdx (i : Nat) (st : IdxState) : List String → IdxState
  | [] => st
  | l :: ls => runIdx (i + 1) (processStrippedIdx i st (pyStrip l)) ls

/-- The instrumented parser: each emitted block paired with the index of the
source line that started it. -/
def parseIdx (lines : List String) : List (Nat × Block) :=
  flushIdx (runIdx 0 { blocks := [], current := none } lines)

/-- Block kinds emitted immediately, without passing through the pending
slot (metadata, cast, transition). -/
def immediateKind : BlockType → Bool
  | .metadata => true
  | .cast => true
  | .transition => true
  | _ => false

/-- Start indices of the emitted blocks that went through the pending slot. -/
def pendIdxs (bs : List (Nat × Block)) : List Nat :=
  (bs.filter fun p => !immediateKind p.2.type).map Prod.fst

/-- Erase the instrumentation from a state. -/
def eraseIdxState (st : IdxState) : ParserState :=
  { blocks := st.blocks.map Prod.snd, current := st.current.map Prod.snd }

/-! ## Helper lemmas: branch equations of the chain -/

theorem listStarts_cons (p c : Char) (ps cs : List Char) :
    listStarts (p :: ps) (c :: cs) = ((p == c) && listStarts ps cs) := rfl

theorem isMetaLine_empty : isMetaLine "" = false := by decide

theorem isCastLine_empty : isCastLine "" = false := by decide

theorem isTransitionLine_empty : isTransitionLine "" = false := by decide

theorem isCharacterLine_empty : isCharacterLine "" = false := by decide

theorem isSceneLine_empty : isSceneLine "" = false := by decide

/-- A line hitting the metadata branch is non-blank. -/
theorem isMetaLine_ne_empty {s : String} (h : isMetaLine s = true) :
    (s == "") = false := by
  cases hb : s == "" with
  | false => rfl
  | true =>
    have hs : s = "" := by simpa using hb
    rw [hs, isMetaLine_empty] at h
    cases h

theorem isCastLine_ne_empty {s : String} (h : isCastLine s = true) :
    (s == "") = false := by
  cases hb : s == "" with
  | false => rfl
  | true =>
    have hs : s = "" := by simpa using hb
    rw [hs, isCastLine_empty] at h
    cases h

theorem isTransitionLine_ne_empty {s : String} (h : isTransitionLine s = true) :
    (s == "") = false := by
  cases hb : s == "" with
  | false => rfl
  | true =>
    have hs : s = "" := by simpa using hb
    rw [hs, isTransitionLine_empty] at h
    cases h

theorem isCharacterLine_ne_empty {s : String} (h : isCharacterLine s = true) :
    (s == "") = false := by
  cases hb : s == "" with
  | false => rfl
  | true =>
    have hs : s = "" := by simpa using hb
    rw [hs, isCharacterLine_empty] at h
    cases h

theorem isSceneLine_ne_empty {s : String} (h : isSceneLine s = true) :
    (s == "") = false := by
  cases hb : s == "" with
  | false => rfl
  | true =>
    have hs : s = "" := by simpa using hb
    rw [hs, isSceneLine_empty] at h
    cases h

/-- Metadata branch: emit a metadata block, pending state untouched. -/
theorem processStripped_meta (st : ParserState) (s : String)
    (h : isMetaLine s = true) :
    processStripped st s =
      { blocks := st.blocks ++ [⟨.metadata, .str s⟩], current := st.current } := by
  simp [processStripped, isMetaLine_ne_empty h, h]

/-- Cast branch: emit a cast block, pending state untouched. -/
theorem processStripped_cast (st : ParserState) (s : String)
    (hm : isMetaLine s = false) (h : isCastLine s = true) :
    processStripped st s =
      { blocks := st.blocks ++ [⟨.cast, .list (castText s)⟩], current := st.current } := by
  simp [processStripped, isCastLine_ne_empty h, hm, h]

/-- Transition branch: emit a transition block, pending state untouched. -/
theorem processStripped_transition (st : ParserState) (s : String)
    (hm : isMetaLine s = false) (hc : isCastLine s = false)
    (h : isTransitionLine s = true) :
    processStripped st s =
      { blocks := st.blocks ++ [⟨.transition, .str s⟩], current := st.current } := by
  simp [processStripped, isTransitionLine_ne_empty h, hm, hc, h]

/-- Character branch: flush pending, open a character block. -/
theorem processStripped_character (st : ParserState) (s : String)
    (hm : isMetaLine s = false) (hc : isCastLine s = false)
    (ht : isTransitionLine s = false) (h : isCharacterLine s = true) :
    processStripped st s =
      { blocks := flushBlocks st, current := some ⟨.character, .str s⟩ } := by
  simp [processStripped, isCharacterLine_ne_empty h, hm, hc, ht, h]

/-- Scene branch: flush pending, open a scene block. -/
theorem processStripped_scene (st : ParserState) (s : String)
    (hm : isMetaLine s = false) (hc : isCastLine s = false)
    (ht : isTransitionLine s = false) (hp : isParenLine s = false)
    (h : isSceneLine s = true) :
    processStripped st s =
      { blocks := flushBlocks st, current := some ⟨.scene, .str s⟩ } := by
  have hch : isCharacterLine s = false := by
    simp only [isSceneLine] at h
    simp [isCharacterLine, h]
  simp [processStripped, isSceneLine_ne_empty h, hm, hc, ht, hch, hp, h]

/-- Decompose `plainLine` into the seven negative guard facts. -/
theorem plainLine_split {line : String} (h : plainLine line = true) :
    (pyStrip line == "") = false ∧ isMetaLine (pyStrip line) = false ∧
      isCastLine (pyStrip line) = false ∧ isTransitionLine (pyStrip line) = false ∧
      isCharacterLine (pyStrip line) = false ∧ isParenLine (pyStrip line) = false ∧
      isSceneLine (pyStrip line) = false := by
  simp only [plainLine, Bool.and_eq_true, Bool.not_eq_true'] at h
  exact ⟨h.1.1.1.1.1.1, h.1.1.1.1.1.2, h.1.1.1.1.2, h.1.1.1.2, h.1.1.2, h.1.2, h.2⟩

/-- A plain line with no pending block opens a single-line action block. -/
theorem processStripped_plain_none (bs : List Block) (s : String)
    (h0 : (s == "") = false) (h1 : isMetaLine s = false) (h2 : isCastLine s = false)
    (h3 : isTransitionLine s = false) (h4 : isCharacterLine s = false)
    (h5 : isParenLine s = false) (h6 : isSceneLine s = false) :
    processStripped ⟨bs, none⟩ s = ⟨bs, some ⟨.action, .str s⟩⟩ := by
  simp [processStripped, h0, h1, h2, h3, h4, h5, h6]

/-- A plain line after a pending character or parenthetical flushes it and
seeds a dialogue block. -/
theorem processStripped_plain_cue (bs : List Block) (b : Block) (s : String)
    (hb : b.type = .character ∨ b.type = .parenthetical)
    (h0 : (s == "") = false) (h1 : isMetaLine s = false) (h2 : isCastLine s = false)
    (h3 : isTransitionLine s = false) (h4 : isCharacterLine s = false)
    (h5 : isParenLine s = false) (h6 : isSceneLine s = false) :
    processStripped ⟨bs, some b⟩ s = ⟨bs ++ [b], some ⟨.dialogue, .str s⟩⟩ := by
  simp [processStripped, h0, h1, h2, h3, h4, h5, h6, hb]

/-- A plain line after a pending dialogue block appends to it with a single
space. -/
theorem processStripped_plain_dialogue (bs : List Block) (t s : String)
    (h0 : (s == "") = false) (h1 : isMetaLine s = false) (h2 : isCastLine s = false)
    (h3 : isTransitionLine s = false) (h4 : isCharacterLine s = false)
    (h5 : isParenLine s = false) (h6 : isSceneLine s = false) :
    processStripped ⟨bs, some ⟨.dialogue, .str t⟩⟩ s =
      ⟨bs, some ⟨.dialogue, .str (t ++ " " ++ s)⟩⟩ := by
  simp [processStripped, h0, h1, h2, h3, h4, h5, h6, appendText]

/-- A plain line after any other pending block flushes it and opens a
single-line action block. -/
theorem processStripped_plain_other (bs : List Block) (b : Block) (s : String)
    (hb1 : b.type ≠ .character) (hb2 : b.type ≠ .parenthetical)
    (hb3 : b.type ≠ .dialogue)
    (h0 : (s == "") = false) (h1 : isMetaLine s = false) (h2 : isCastLine s = false)
    (h3 : isTransitionLine s = false) (h4 : isCharacterLine s = false)
    (h5 : isParenLine s = false) (h6 : isSceneLine s = false) :
    processStripped ⟨bs, some b⟩ s = ⟨bs ++ [b], some ⟨.action, .str s⟩⟩ := by
  simp [processStripped, h0, h1, h2, h3, h4, h5, h6, hb1, hb2, hb3]

/-- A scene line (starting `INT.`/`EXT.`) can match none of the metadata,
cast, or parenthetical guards: their prefixes disagree at the first
character. -/
theorem isSceneLine_excludes {s : String} (h : isSceneLine s = true) :
    isMetaLine s = false ∧ isCastLine s = false ∧ isParenLine s = false := by
  obtain ⟨l⟩ := s
  cases l with
  | nil => exact absurd h (by decide)
  | cons c cs =>
    have hc : c = 'I' ∨ c = 'E' := by
      simp only [isSceneLine, strStarts, Bool.or_eq_true] at h
      rcases h with h | h
      · have e : listStarts "INT.".data (c :: cs) =
            (('I' == c) && listStarts ['N', 'T', '.'] cs) := rfl
        rw [e, Bool.and_eq_true] at h
        have h' : 'I' = c := by simpa using h.1
        exact Or.inl h'.symm
      · have e : listStarts "EXT.".data (c :: cs) =
            (('E' == c) && listStarts ['X', 'T', '.'] cs) := rfl
        rw [e, Bool.and_eq_true] at h
        have h' : 'E' = c := by simpa using h.1
        exact Or.inr h'.symm
    rcases hc with hc | hc <;> subst hc <;> exact ⟨rfl, rfl, rfl⟩

/-- The character guard never fires on a scene line: the guard explicitly
excludes the `INT.`/`EXT.` prefixes. -/
theorem isSceneLine_not_character {s : String} (h : isSceneLine s = true) :
    isCharacterLine s = false := by
  simp only [isSceneLine] at h
  simp [isCharacterLine, h]

/-- Any metadata, cast, or transition line leaves the pending slot exactly
as it was. -/
theorem processStripped_immediate_current (st : ParserState) (s : String)
    (h : (isMetaLine s || isCastLine s || isTransitionLine s) = true) :
    (processStripped st s).current = st.current := by
  cases hm : isMetaLine s with
  | true => rw [processStripped_meta st s hm]
  | false =>
    cases hc : isCastLine s with
    | true => rw [processStripped_cast st s hm hc]
    | false =>
      have ht : isTransitionLine s = true := by
        have h' : (isMetaLine s = true ∨ isCastLine s = true) ∨
            isTransitionLine s = true := by simpa using h
        rcases h' with (h' | h') | h'
        · rw [hm] at h'; cases h'
        · rw [hc] at h'; cases h'
        · exact h'
      rw [processStripped_transition st s hm hc ht]

/-- Dialogue accumulation: a run of plain lines processed while a dialogue
block is pending only extends that block, one space-separated stripped line
at a time. -/
theorem runLines_accum (ds : List String) :
    ∀ (bs : List Block) (t : String), (∀ d ∈ ds, plainLine d = true) →
      runLines ⟨bs, some ⟨.dialogue, .str t⟩⟩ ds =
        ⟨bs, some ⟨.dialogue, .str (joinFrom t ds)⟩⟩ := by
  induction ds with
  | nil => intro bs t _; simp [runLines, joinFrom]
  | cons d ds ih =>
    intro bs t h
    obtain ⟨h0, h1, h2, h3, h4, h5, h6⟩ := plainLine_split (h d (List.mem_cons_self d ds))
    simp only [runLines, processLine]
    rw [processStripped_plain_dialogue bs t (pyStrip d) h0 h1 h2 h3 h4 h5 h6]
    rw [ih bs (t ++ " " ++ pyStrip d) (fun x hx => h x (List.mem_cons_of_mem d hx))]
    rfl

/-- The dialogue join is exactly the single-space `String.intercalate` of the
stripped lines. -/
theorem joinFrom_eq_intercalate (t : String) (ds : List String) :
    joinFrom t ds = String.intercalate " " (t :: ds.map pyStrip) := by
  have hgo : ∀ (xs : List String) (acc : String),
      String.intercalate.go acc " " xs = xs.foldl (fun a b => a ++ " " ++ b) acc := by
    intro xs
    induction xs with
    | nil => intro acc; rfl
    | cons x xs ih => intro acc; simp only [String.intercalate.go, List.foldl]; rw [ih]
  simp only [String.intercalate, hgo, joinFrom, List.foldl_map]

/-! ## Ordering invariant of the instrumented parser -/

theorem pendIdxs_append_one (bs : List (Nat × Block)) (p : Nat × Block) :
    pendIdxs (bs ++ [p]) =
      pendIdxs bs ++ if immediateKind p.2.type then [] else [p.1] := by
  simp only [pendIdxs, List.filter_append, List.map_append]
  cases h : immediateKind p.2.type <;> simp [List.filter_cons, h]

/-- The start-index invariant carried through the instrumented loop before
line `i`: emitted pending-origin indices are strictly increasing and below
`i`, and any pending block started after all of them and before line `i`. -/
def IdxInv (i : Nat) (st : IdxState) : Prop :=
  List.Pairwise (· < ·) (pendIdxs st.blocks) ∧
    (∀ x ∈ pendIdxs st.blocks, x < i) ∧
    ∀ p, st.current = some p → (∀ x ∈ pendIdxs st.blocks, x < p.1) ∧ p.1 < i

/-- Flushing the pending block keeps the indices strictly increasing and
below the current line. -/
theorem inv_flush {i : Nat} {st : IdxState} (h : IdxInv i st) :
    List.Pairwise (· < ·) (pendIdxs (flushIdx st)) ∧
      ∀ x ∈ pendIdxs (flushIdx st), x < i := by
  obtain ⟨hpw, hlt, hcur⟩ := h
  cases hc : st.current with
  | none => simp only [flushIdx, hc]; exact ⟨hpw, hlt⟩
  | some p =>
    obtain ⟨hbound, hpi⟩ := hcur p hc
    simp only [flushIdx, hc]
    rw [pendIdxs_append_one]
    cases himm : immediateKind p.2.type with
    | true => simpa using ⟨hpw, hlt⟩
    | false =>
      rw [if_neg (by simp : ¬(false = true))]
      constructor
      · exact List.pairwise_append.mpr
          ⟨hpw, List.pairwise_singleton _ _,
            fun a ha b hb => by rw [List.mem_singleton.mp hb]; exact hbound a ha⟩
      · intro x hx
        rcases List.mem_append.mp hx with hx | hx
        · exact hlt x hx
        · rw [List.mem_singleton.mp hx]; exact hpi

theorem inv_flushNone {i : Nat} {st : IdxState} (h : IdxInv i st) :
    IdxInv (i + 1) ⟨flushIdx st, none⟩ := by
  obtain ⟨hpw, hlt⟩ := inv_flush h
  exact ⟨hpw, fun x hx => Nat.lt_succ_of_lt (hlt x hx), fun p hp => nomatch hp⟩

theorem inv_emit {i : Nat} {st : IdxState} (h : IdxInv i st) (j : Nat) (b : Block)
    (himm : immediateKind b.type = true) :
    IdxInv (i + 1) ⟨st.blocks ++ [(j, b)], st.current⟩ := by
  obtain ⟨hpw, hlt, hcur⟩ := h
  have e : pendIdxs (st.blocks ++ [(j, b)]) = pendIdxs st.blocks := by
    rw [pendIdxs_append_one]; simp [himm]
  refine ⟨by rw [e]; exact hpw, by rw [e]; exact fun x hx => Nat.lt_succ_of_lt (hlt x hx), ?_⟩
  intro p hp
  obtain ⟨hbound, hpi⟩ := hcur p hp
  exact ⟨by rw [e]; exact hbound, Nat.lt_succ_of_lt hpi⟩

theorem inv_flushOpen {i : Nat} {st : IdxState} (h : IdxInv i st) (b : Block) :
    IdxInv (i + 1) ⟨flushIdx st, some (i, b)⟩ := by
  obtain ⟨hpw, hlt⟩ := inv_flush h
  refine ⟨hpw, fun x hx => Nat.lt_succ_of_lt (hlt x hx), ?_⟩
  intro p hp
  obtain rfl : p = (i, b) := by injection hp with hp; exact hp.symm
  exact ⟨hlt, Nat.lt_succ_self i⟩

theorem inv_openKeep {i : Nat} {st : IdxState} (h : IdxInv i st) (b : Block) :
    IdxInv (i + 1) ⟨st.blocks, some (i, b)⟩ := by
  obtain ⟨hpw, hlt, _⟩ := h
  refine ⟨hpw, fun x hx => Nat.lt_succ_of_lt (hlt x hx), ?_⟩
  intro p hp
  obtain rfl : p = (i, b) := by injection hp with hp; exact hp.symm
  exact ⟨hlt, Nat.lt_succ_self i⟩

theorem inv_accum {i : Nat} {st : IdxState} {q : Nat × Block} (h : IdxInv i st)
    (hc : st.current = some q) (b : Block) :
    IdxInv (i + 1) ⟨st.blocks, some (q.1, b)⟩ := by
  obtain ⟨hpw, hlt, hcur⟩ := h
  obtain ⟨hbound, hqi⟩ := hcur q hc
  refine ⟨hpw, fun x hx => Nat.lt_succ_of_lt (hlt x hx), ?_⟩
  intro p hp
  obtain rfl : p = (q.1, b) := by injection hp with hp; exact hp.symm
  exact ⟨hbound, Nat.lt_succ_of_lt hqi⟩

/-- One instrumented step preserves the invariant. -/
theorem inv_step (i : Nat) (st : IdxState) (s : String) (h : IdxInv i st) :
    IdxInv (i + 1) (processStrippedIdx i st s) := by
  simp only [processStrippedIdx]
  split
  · exact inv_flushNone h
  split
  · exact inv_emit h i _ rfl
  split
  · exact inv_emit h i _ rfl
  split
  · exact inv_emit h i _ rfl
  split
  · exact inv_flushOpen h _
  split
  · split
    next p heq =>
      split
      · have e : flushIdx st = st.blocks ++ [p] := by simp only [flushIdx, heq]
        rw [← e]
        exact inv_flushOpen h _
      · exact inv_openKeep h _
    next heq => exact inv_openKeep h _
  split
  · exact inv_flushOpen h _
  split
  next p heq =>
    split
    · have e : flushIdx st = st.blocks ++ [p] := by simp only [flushIdx, heq]
      rw [← e]
      exact inv_flushOpen h _
    split
    · exact inv_accum h heq _
    · have e : flushIdx st = st.blocks ++ [p] := by simp only [flushIdx, heq]
      rw [← e]
      exact inv_flushOpen h _
  next heq => exact inv_openKeep h _

/-- The invariant holds after running the instrumented loop. -/
theorem inv_run : ∀ (ls : List String) (i : Nat) (st : IdxState),
    IdxInv i st → IdxInv (i + ls.length) (runIdx i st ls)
  | [], i, st, h => by simpa [runIdx] using h
  | l :: ls, i, st, h => by
    have h' := inv_run ls (i + 1) _ (inv_step i st (pyStrip l) h)
    have e : i + (l :: ls).length = i + 1 + ls.length := by
      simp [List.length_cons]; omega
    rw [e]
    simpa [runIdx] using h'
/-- Erasing the instrumentation commutes with one parser step. -/
theorem erase_processStripped (i : Nat) (st : IdxState) (s : String) :
    eraseIdxState (processStrippedIdx i st s) = processStripped (eraseIdxState st) s := by
  obtain ⟨bs, cur⟩ := st
  cases h0 : s == "" with
  | true =>
    cases cur <;>
      simp [processStrippedIdx, processStripped, h0, eraseIdxState, flushIdx, flushBlocks]
  | false =>
    cases h1 : isMetaLine s with
    | true => simp [processStrippedIdx, processStripped, h0, h1, eraseIdxState]
    | false =>
    cases h2 : isCastLine s with
    | true => simp [processStrippedIdx, processStripped, h0, h1, h2, eraseIdxState]
    | false =>
    cases h3 : isTransitionLine s with
    | true => simp [processStrippedIdx, processStripped, h0, h1, h2, h3, eraseIdxState]
    | false =>
    cases h4 : isCharacterLine s with
    | true =>
      cases cur <;>
        simp [processStrippedIdx, processStripped, h0, h1, h2, h3, h4, eraseIdxState,
          flushIdx, flushBlocks]
    | false =>
    cases h5 : isParenLine s with
    | true =>
      cases cur with
      | none =>
        simp [processStrippedIdx, processStripped, h0, h1, h2, h3, h4, h5, eraseIdxState]
      | some p =>
        by_cases hq : p.2.type = BlockType.character <;>
          simp [processStrippedIdx, processStripped, h0, h1, h2, h3, h4, h5, hq,
            eraseIdxState]
    | false =>
    cases h6 : isSceneLine s with
    | true =>
      cases cur <;>
        simp [processStrippedIdx, processStripped, h0, h1, h2, h3, h4, h5, h6,
          eraseIdxState, flushIdx, flushBlocks]
    | false =>
      cases cur with
      | none =>
        simp [processStrippedIdx, processStripped, h0, h1, h2, h3, h4, h5, h6, eraseIdxState]
      | some p =>
        by_cases hq : p.2.type = BlockType.character ∨ p.2.type = BlockType.parenthetical
        · simp [processStrippedIdx, processStripped, h0, h1, h2, h3, h4, h5, h6, hq,
            eraseIdxState]
        · by_cases hd : p.2.type = BlockType.dialogue <;>
            simp [processStrippedIdx, processStripped, h0, h1, h2, h3, h4, h5, h6, hq, hd,
              eraseIdxState]

/-- Erasing the instrumentation commutes with the whole loop. -/
theorem erase_runIdx : ∀ (ls : List String) (i : Nat) (st : IdxState),
    eraseIdxState (runIdx i st ls) = runLines (eraseIdxState st) ls
  | [], _, _ => rfl
  | l :: ls, i, st => by
    simp only [runIdx, runLines, processLine]
    rw [erase_runIdx ls (i + 1), erase_processStripped]

/-- The instrumented parser computes `parse_fountain`, block for block. -/
theorem parseIdx_snd (lines : List String) :
    (parseIdx lines).map Prod.snd = parse_fountain lines := by
  have h := erase_runIdx lines 0 ⟨[], none⟩
  have h1 : (runIdx 0 ⟨[], none⟩ lines).blocks.map Prod.snd =
      (runLines ⟨[], none⟩ lines).blocks := congrArg ParserState.blocks h
  have h2 : ((runIdx 0 ⟨[], none⟩ lines).current).map Prod.snd =
      (runLines ⟨[], none⟩ lines).current := congrArg ParserState.current h
  simp only [parseIdx, parse_fountain]
  cases hc : (runIdx 0 ⟨[], none⟩ lines).current with
  | none =>
    rw [hc] at h2
    simp only [flushIdx, hc, flushBlocks, ← h2, Option.map_none', ← h1]
  | some p =>
    rw [hc] at h2
    simp only [flushIdx, hc, flushBlocks, ← h2, Option.map_some', ← h1, List.map_append,
      List.map_cons, List.map_nil]

/-! ## Further helper lemmas for the claim theorems -/

theorem runLines_append (l1 l2 : List String) :
    ∀ st : ParserState, runLines st (l1 ++ l2) = runLines (runLines st l1) l2 := by
  induction l1 with
  | nil => intro st; rfl
  | cons l ls ih => intro st; simp only [List.cons_append, runLines]; exact ih _

theorem processLine_blank (st : ParserState) : processLine st "" = ⟨flushBlocks st, none⟩ := rfl

/-- Running the machine on a character cue, a first dialogue line, and a run
of plain continuation lines: the cue is flushed and one dialogue block
accumulates everything. -/
theorem runLines_char_dialogue (c d : String) (ds : List String)
    (hc : characterTrigger c = true) (hd : plainLine d = true)
    (hds : ∀ x ∈ ds, plainLine x = true) :
    runLines ⟨[], none⟩ (c :: d :: ds) =
      ⟨[⟨.character, .str (pyStrip c)⟩], some ⟨.dialogue, .str (joinFrom (pyStrip d) ds)⟩⟩ := by
  simp only [characterTrigger, Bool.and_eq_true, Bool.not_eq_true'] at hc
  obtain ⟨⟨⟨hm, hcst⟩, htr⟩, hch⟩ := hc
  obtain ⟨h0, h1, h2, h3, h4, h5, h6⟩ := plainLine_split hd
  have e1 : processLine ⟨[], none⟩ c = ⟨[], some ⟨.character, .str (pyStrip c)⟩⟩ := by
    rw [processLine, processStripped_character _ _ hm hcst htr hch]; rfl
  have e2 : processLine ⟨[], some ⟨.character, .str (pyStrip c)⟩⟩ d =
      ⟨[⟨.character, .str (pyStrip c)⟩], some ⟨.dialogue, .str (pyStrip d)⟩⟩ := by
    rw [processLine,
      processStripped_plain_cue [] ⟨.character, .str (pyStrip c)⟩ (pyStrip d)
        (Or.inl rfl) h0 h1 h2 h3 h4 h5 h6]
    rfl
  simp only [runLines]
  rw [e1, e2, runLines_accum ds _ _ hds]

/-! ## Claim theorems -/

/-- C1: the claim says every non-blank, non-metadata, non-cast,
non-transition line ends up in exactly one emitted block, in particular when
a parenthetical-shaped line arrives over a pending non-Character block.  The
code violates this: on the lines `BOB` / `Hello.` / `(beat)` the pending
`Dialogue("Hello.")` is overwritten by the parenthetical branch without
being flushed, so the output holds no block containing `Hello.` — the line
is dropped.  This theorem evaluates the parser at that failing input. -/
theorem C1_paren_overwrite_drops_line :
    parse_fountain ["BOB", "Hello.", "(beat)"] =
      [⟨.character, .str "BOB"⟩, ⟨.parenthetical, .str "(beat)"⟩] := by
  decide

/-- C2 (counterexample): blocks do not always appear in the order of the
source lines that started them.  On `["He walks in.", "Title: Foo"]` the
action block started by line 0 is still pending when line 1 emits its
metadata block immediately, so the output order is line 1's block before
line 0's block.  The second conjunct checks the instrumented parser against
`parse_fountain` on this input. -/
theorem C2_counterexample :
    parseIdx ["He walks in.", "Title: Foo"] =
      [(1, ⟨.metadata, .str "Title: Foo"⟩), (0, ⟨.action, .str "He walks in."⟩)] ∧
    parse_fountain ["He walks in.", "Title: Foo"] =
      [⟨.metadata, .str "Title: Foo"⟩, ⟨.action, .str "He walks in."⟩] :=
  ⟨by decide, by decide⟩

/-- C2 (amended): blocks that pass through the pending slot (character,
parenthetical, scene, dialogue, action) are emitted in strictly increasing
start-line order, for every input; an immediately-emitted metadata, cast, or
transition block can however precede an earlier-started pending block (see
the counterexample).  The second conjunct ties the instrumented parser to
`parse_fountain`: erasing the start indices yields exactly its output. -/
theorem C2_pending_blocks_in_start_order :
    ∀ lines : List String,
      List.Pairwise (· < ·) (pendIdxs (parseIdx lines)) ∧
        (parseIdx lines).map Prod.snd = parse_fountain lines := by
  intro lines
  constructor
  · have h0 : IdxInv 0 ⟨[], none⟩ :=
      ⟨List.Pairwise.nil, by simp [pendIdxs], fun p hp => nomatch hp⟩
    have h := inv_run lines 0 ⟨[], none⟩ h0
    simpa [parseIdx] using (inv_flush h).1
  · exact parseIdx_snd lines

/-- C3 (counterexample): the claim says cast content drops empty entries
(and strips only the prefix).  The code instead replaces every occurrence of
`Cast:` and keeps empty fields: on `Cast: [Alice,,Cast: Bob]` it produces
`["Alice", "", "Bob"]`, which contains the empty string (the claim predicts
`["Alice", "Cast: Bob"]`). -/
theorem C3_counterexample :
    parse_fountain ["Cast: [Alice,,Cast: Bob]"] =
      [⟨.cast, .list ["Alice", "", "Bob"]⟩] ∧
    "" ∈ castText (pyStrip "Cast: [Alice,,Cast: Bob]") :=
  ⟨by decide, by decide⟩

/-- C3 (amended): a `Cast:` line (that is not also metadata) immediately
emits a Cast block without touching pending state; its content deletes every
occurrence of `Cast:`, trims, strips surrounding brackets, splits on commas
and trims each name, keeping empty entries.  On the spec's example the
result is still exactly `["Alice", "Bob Smith", "Carol"]`. -/
theorem C3_cast_line_amended :
    (∀ (st : ParserState) (line : String),
        isMetaLine (pyStrip line) = false → isCastLine (pyStrip line) = true →
        processLine st line =
          { blocks := st.blocks ++ [⟨.cast, .list (castText (pyStrip line))⟩],
            current := st.current }) ∧
    castText (pyStrip "Cast: [Alice, Bob Smith,  Carol]") = ["Alice", "Bob Smith", "Carol"] := by
  constructor
  · intro st line hm hc
    rw [processLine, processStripped_cast st _ hm hc]
  · decide

theorem C3_witness :
    isCastLine (pyStrip "Cast: [Alice, Bob]") = true ∧
    processLine ⟨[], none⟩ "Cast: [Alice, Bob]" =
      ⟨[⟨.cast, .list ["Alice", "Bob"]⟩], none⟩ :=
  ⟨by decide,
    C3_cast_line_amended.1 ⟨[], none⟩ "Cast: [Alice, Bob]" (by decide) (by decide)⟩

/-- C4: the classifier is total — the embedding `processLine` is a total
function of any state and line, so no input can make it fail — and the
final `else` of the chain is the Action default: any non-blank line that
matches no guard, when the pending block is absent or cannot absorb it as
dialogue, flushes the pending block and opens a fresh single-line Action
block. -/
theorem C4_default_action :
    ∀ (st : ParserState) (line : String),
      plainLine line = true →
      (∀ b, st.current = some b →
        b.type ≠ .character ∧ b.type ≠ .parenthetical ∧ b.type ≠ .dialogue) →
      processLine st line =
        { blocks := flushBlocks st, current := some ⟨.action, .str (pyStrip line)⟩ } := by
  intro st line hp hcur
  obtain ⟨h0, h1, h2, h3, h4, h5, h6⟩ := plainLine_split hp
  obtain ⟨bs, cur⟩ := st
  cases cur with
  | none =>
    rw [processLine, processStripped_plain_none bs _ h0 h1 h2 h3 h4 h5 h6]
    rfl
  | some b =>
    obtain ⟨hb1, hb2, hb3⟩ := hcur b rfl
    rw [processLine, processStripped_plain_other bs b _ hb1 hb2 hb3 h0 h1 h2 h3 h4 h5 h6]
    rfl

theorem C4_witness :
    plainLine "He walks in." = true ∧
    processLine ⟨[], none⟩ "He walks in." = ⟨[], some ⟨.action, .str "He walks in."⟩⟩ :=
  ⟨by decide, C4_default_action ⟨[], none⟩ "He walks in." (by decide) (fun b hb => nomatch hb)⟩

/-- C5: a Dialogue block's content is the single-space join of all
contiguous dialogue lines following a Character cue, terminated by end of
input or a blank line.  The join is literally `String.intercalate " "` of
the stripped lines, and on the spec's example the two lines fold into one
dialogue block. -/
theorem C5_dialogue_accumulation :
    (∀ (c d : String) (ds : List String),
        characterTrigger c = true → plainLine d = true →
        (∀ x ∈ ds, plainLine x = true) →
        parse_fountain (c :: d :: ds) =
          [⟨.character, .str (pyStrip c)⟩, ⟨.dialogue, .str (joinFrom (pyStrip d) ds)⟩] ∧
        parse_fountain ((c :: d :: ds) ++ [""]) =
          [⟨.character, .str (pyStrip c)⟩, ⟨.dialogue, .str (joinFrom (pyStrip d) ds)⟩]) ∧
    (∀ (t : String) (ds : List String),
        joinFrom t ds = String.intercalate " " (t :: ds.map pyStrip)) ∧
    parse_fountain ["BOB", "I can't believe", "this is happening.", ""] =
      [⟨.character, .str "BOB"⟩, ⟨.dialogue, .str "I can't believe this is happening."⟩] := by
  refine ⟨?_, joinFrom_eq_intercalate, by decide⟩
  intro c d ds hc hd hds
  have hrun := runLines_char_dialogue c d ds hc hd hds
  constructor
  · simp only [parse_fountain, hrun, flushBlocks]
    rfl
  · simp only [parse_fountain, runLines_append (c :: d :: ds) [""], hrun]
    simp only [runLines, processLine_blank, flushBlocks]
    rfl

theorem C5_witness :
    characterTrigger "BOB" = true ∧ plainLine "Hi" = true ∧ plainLine "there" = true ∧
    parse_fountain ["BOB", "Hi", "there"] =
      [⟨.character, .str "BOB"⟩, ⟨.dialogue, .str "Hi there"⟩] :=
  ⟨by decide, by decide, by decide,
    (C5_dialogue_accumulation.1 "BOB" "Hi" ["there"] (by decide) (by decide) (by decide)).1⟩

/-- C6: consecutive default-classified (action) lines never merge.  From a
state with no pending block, two plain lines yield one single-line Action
block flushed and a second one pending; on the spec's example each line
becomes its own Action block. -/
theorem C6_action_lines_no_merge :
    (∀ (bs : List Block) (l1 l2 : String),
        plainLine l1 = true → plainLine l2 = true →
        runLines ⟨bs, none⟩ [l1, l2] =
          ⟨bs ++ [⟨.action, .str (pyStrip l1)⟩], some ⟨.action, .str (pyStrip l2)⟩⟩) ∧
    parse_fountain ["He walks in.", "She stares."] =
      [⟨.action, .str "He walks in."⟩, ⟨.action, .str "She stares."⟩] := by
  constructor
  · intro bs l1 l2 h1 h2
    obtain ⟨a0, a1, a2, a3, a4, a5, a6⟩ := plainLine_split h1
    obtain ⟨b0, b1, b2, b3, b4, b5, b6⟩ := plainLine_split h2
    simp only [runLines, processLine]
    rw [processStripped_plain_none bs _ a0 a1 a2 a3 a4 a5 a6]
    rw [processStripped_plain_other bs ⟨.action, .str (pyStrip l1)⟩ _
      (fun h => nomatch h) (fun h => nomatch h) (fun h => nomatch h) b0 b1 b2 b3 b4 b5 b6]
  · decide

theorem C6_witness :
    plainLine "He walks in." = true ∧ plainLine "She stares." = true ∧
    runLines ⟨[], none⟩ ["He walks in.", "She stares."] =
      ⟨[⟨.action, .str "He walks in."⟩], some ⟨.action, .str "She stares."⟩⟩ :=
  ⟨by decide, by decide,
    C6_action_lines_no_merge.1 [] "He walks in." "She stares." (by decide) (by decide)⟩

/-- C7: a metadata line (prefix `Title:`, `Credit:`, `Author:`, or
`Draft date:` after trimming) immediately emits a Metadata block whose
content is the trimmed line with the prefix retained, and leaves the pending
slot exactly as it was — nothing is flushed, opened, or modified. -/
theorem C7_metadata_immediate :
    ∀ (st : ParserState) (line : String),
      isMetaLine (pyStrip line) = true →
      processLine st line =
        { blocks := st.blocks ++ [⟨.metadata, .str (pyStrip line)⟩],
          current := st.current } := by
  intro st line hm
  rw [processLine, processStripped_meta st _ hm]

theorem C7_witness :
    isMetaLine (pyStrip "Title: My Play") = true ∧
    processLine ⟨[], some ⟨.action, .str "He waits."⟩⟩ "Title: My Play" =
      ⟨[⟨.metadata, .str "Title: My Play"⟩], some ⟨.action, .str "He waits."⟩⟩ :=
  ⟨by decide,
    C7_metadata_immediate ⟨[], some ⟨.action, .str "He waits."⟩⟩ "Title: My Play" (by decide)⟩

/-- C8 (counterexample): an all-upper-case line starting with `INT.` is not
always classified as a Scene heading: `INT. CUT TO:` is upper-case, starts
with `INT.`, yet ends with `TO:`, so the earlier transition rule emits a
Transition block instead. -/
theorem C8_counterexample :
    pyIsUpper "INT. CUT TO:" = true ∧ isSceneLine "INT. CUT TO:" = true ∧
    parse_fountain ["INT. CUT TO:"] = [⟨.transition, .str "INT. CUT TO:"⟩] :=
  ⟨by decide, by decide, by decide⟩

/-- C8 (amended): a line starting with `INT.`/`EXT.` is always excluded from
the Character rule by its guard, and an all-upper-case `INT.`/`EXT.` line
that is not a transition line (the earlier rule: the three transition
literals, or a `TO:` suffix) is classified as a Scene heading; the spec's
example produces one Scene block with that exact text. -/
theorem C8_scene_not_character :
    (∀ s : String, isSceneLine s = true → isCharacterLine s = false) ∧
    (∀ (st : ParserState) (line : String),
        pyIsUpper (pyStrip line) = true →
        isSceneLine (pyStrip line) = true →
        isTransitionLine (pyStrip line) = false →
        processLine st line =
          { blocks := flushBlocks st, current := some ⟨.scene, .str (pyStrip line)⟩ }) ∧
    parse_fountain ["INT. KITCHEN - DAY"] = [⟨.scene, .str "INT. KITCHEN - DAY"⟩] := by
  refine ⟨fun s hs => isSceneLine_not_character hs, ?_, by decide⟩
  intro st line _ hs ht
  obtain ⟨hm, hc, hp⟩ := isSceneLine_excludes hs
  rw [processLine, processStripped_scene st _ hm hc ht hp hs]

theorem C8_witness :
    pyIsUpper "INT. KITCHEN - DAY" = true ∧ isSceneLine "INT. KITCHEN - DAY" = true ∧
    processLine ⟨[], none⟩ "INT. KITCHEN - DAY" =
      ⟨[], some ⟨.scene, .str "INT. KITCHEN - DAY"⟩⟩ :=
  ⟨by decide, by decide,
    C8_scene_not_character.2.1 ⟨[], none⟩ "INT. KITCHEN - DAY" (by decide) (by decide)
      (by decide)⟩

/-- C9: a metadata, cast, or transition line does not terminate an
in-progress Dialogue accumulation.  With a Dialogue block pending, such a
line is emitted immediately and the pending slot is untouched, so a
following otherwise-unclassified line is appended (single space) to the same
Dialogue block — one Dialogue block can span lines that are not contiguous
in the source, as the concrete example shows. -/
theorem C9_dialogue_spans_immediates :
    (∀ (st : ParserState) (t m d : String),
        st.current = some ⟨.dialogue, .str t⟩ →
        immediateLine m = true → plainLine d = true →
        runLines st [m, d] =
          ⟨(processLine st m).blocks, some ⟨.dialogue, .str (t ++ " " ++ pyStrip d)⟩⟩) ∧
    parse_fountain ["BOB", "Hello", "Title: X", "world"] =
      [⟨.character, .str "BOB"⟩, ⟨.metadata, .str "Title: X"⟩,
       ⟨.dialogue, .str "Hello world"⟩] := by
  constructor
  · intro st t m d hcur him hd
    simp only [immediateLine, Bool.and_eq_true] at him
    have hkeep : (processLine st m).current = some ⟨.dialogue, .str t⟩ := by
      rw [processLine, processStripped_immediate_current st _ him.2]
      exact hcur
    obtain ⟨h0, h1, h2, h3, h4, h5, h6⟩ := plainLine_split hd
    simp only [runLines]
    generalize hg : processLine st m = st2
    rw [hg] at hkeep
    obtain ⟨bs2, cur2⟩ := st2
    simp only at hkeep
    subst hkeep
    rw [processLine, processStripped_plain_dialogue bs2 t _ h0 h1 h2 h3 h4 h5 h6]
  · decide

theorem C9_witness :
    immediateLine "Title: X" = true ∧ plainLine "world" = true ∧
    runLines ⟨[], some ⟨.dialogue, .str "Hello"⟩⟩ ["Title: X", "world"] =
      ⟨[⟨.metadata, .str "Title: X"⟩], some ⟨.dialogue, .str "Hello world"⟩⟩ :=
  ⟨by decide, by decide,
    C9_dialogue_spans_immediates.1 ⟨[], some ⟨.dialogue, .str "Hello"⟩⟩ "Hello" "Title: X"
      "world" rfl (by decide) (by decide)⟩

/-- C10: a line with no (ASCII-cased) alphabetic character never satisfies
the character guard, because the upper-case test requires at least one cased
character; absent any other matching rule such a line becomes its own Action
block, e.g. `42.`. -/
theorem C10_uncased_never_character :
    (∀ s : String, s.data.all (fun c => !(isCased c)) = true → isCharacterLine s = false) ∧
    parse_fountain ["42."] = [⟨.action, .str "42."⟩] := by
  constructor
  · intro s h
    simp only [List.all_eq_true, Bool.not_eq_true'] at h
    have hany : s.data.any isCased = false := by
      cases ha : s.data.any isCased with
      | false => rfl
      | true =>
        obtain ⟨x, hx, hpx⟩ := List.any_eq_true.mp ha
        rw [h x hx] at hpx
        cases hpx
    simp [isCharacterLine, pyIsUpper, hany]
  · decide

theorem C10_witness :
    ("42.").data.all (fun c => !(isCased c)) = true ∧ isCharacterLine "42." = false :=
  ⟨by decide, C10_uncased_never_character.1 "42." (by decide)⟩
